import Mathlib

/-!
Verification of the FYP real-time image classification backend
(src/Backend/config.py, src/Backend/model_worker.py, src/Backend/main.py).

The development shallowly embeds the Python code:

* numeric confidences are modelled as rationals (the Python code uses
  IEEE floats; every claim settled here concerns the order of operations
  and comparisons, not float representation issues);
* Python round(x, 2) is modelled as round-half-to-even to two decimals,
  matching the documented semantics of round;
* np.argsort is modelled as an ascending argsort whose tie order is
  determinized to ascending index.  The numpy default kind is introsort,
  which guarantees no tie order between equal values at all; every
  conclusion drawn from the model below is independent of that
  determinization (descending values, result length, thresholding), and
  no tie-order-dependent property is settled against it;
* the asyncio interleaving of the WebSocket receive loop and the
  per-connection inference loop is modelled as a labelled transition
  system whose atomic steps are the code regions between await points;
* the ThreadPoolExecutor used by model_worker.py is Python standard
  library code, not part of this repository; its bounded-worker FIFO
  semantics is modelled from the specification (section 4.2).
-/

/-! ### config.py -/

/-- config.py line 14: the fixed ordered label set. -/
def CLASS_NAMES : List String :=
  ["animals", "barriers", "busstop", "cables", "clear_path",
   "construction_site", "crosswalk", "doors", "elevators", "fire",
   "fire_exits", "potholes", "slippery_surface", "speed_bumps", "staircases",
   "streetlight_poles", "traffic_lights", "trash_bins", "vehicles", "walls"]

/-- config.py line 39: how many labels to return per prediction. -/
def TOP_K : Nat := 3

/-- config.py line 43: minimum confidence (0-100) to include a label. -/
def CONFIDENCE_THRESHOLD : ℚ := 5

/-- config.py line 47: max concurrent model predict calls
(default of the environment override). -/
def MAX_INFERENCE_WORKERS : Nat := 2

/-- config.py line 52: max size in bytes of a single WebSocket message. -/
def WS_MAX_MESSAGE_BYTES : Nat := 2 * 1024 * 1024

/-- config.py line 55: allowed upload MIME types (a Python set, modelled
as a list with membership). -/
def ALLOWED_MIME_TYPES : List String :=
  ["image/jpeg", "image/png", "image/gif", "image/bmp", "image/webp"]

/-- config.py line 62: max upload size for the single-shot endpoint. -/
def MAX_UPLOAD_BYTES : Nat := 10 * 1024 * 1024

/-! ### model_worker.py: result post-processing (lines 65-81)

A frame is an opaque byte buffer; bytes are modelled as naturals. -/

abbrev Frame := List Nat

/-- Round to the nearest integer, ties to the nearest even integer:
the semantics of Python round applied to an exact value. -/
def roundHalfEven (q : ℚ) : ℤ :=
  if Int.fract q < 1/2 then ⌊q⌋
  else if 1/2 < Int.fract q then ⌊q⌋ + 1
  else if Even ⌊q⌋ then ⌊q⌋ else ⌊q⌋ + 1

/-- Python round(q, 2): round to two decimal places, ties to even. -/
def round2 (q : ℚ) : ℚ := (roundHalfEven (q * 100) : ℚ) / 100

/-- Comparison used by the argsort model: order indices by value
ascending, breaking ties by ascending index (stable ascending argsort). -/
def idxLe (raw : List ℚ) (i j : Nat) : Prop :=
  raw.getD i 0 < raw.getD j 0 ∨ (raw.getD i 0 = raw.getD j 0 ∧ i ≤ j)

instance (raw : List ℚ) : DecidableRel (idxLe raw) :=
  fun i j =>
    decidable_of_iff (raw.getD i 0 < raw.getD j 0 ∨ (raw.getD i 0 = raw.getD j 0 ∧ i ≤ j)) Iff.rfl

/-- model_worker.py line 71, raw.argsort(): the indices of raw sorted by
value ascending (tie order determinized, see the header comment; nothing
proved below depends on it). -/
def argsort (raw : List ℚ) : List Nat :=
  List.insertionSort (idxLe raw) (List.range raw.length)

/-- Python slice l[-k:]  (for k = 0 the slice l[-0:] is all of l). -/
def takeLast (k : Nat) (l : List Nat) : List Nat :=
  if k = 0 then l else l.drop (l.length - k)

/-- model_worker.py line 71: top_indices = raw.argsort()[-TOP_K:][::-1]. -/
def topIndices (k : Nat) (raw : List ℚ) : List Nat :=
  (takeLast k (argsort raw)).reverse

/-- model_worker.py lines 73-81: the result loop.  For each selected
index, confidence = round(raw[idx] * 100, 2); the entry is appended
exactly when confidence is at least the threshold. -/
def formatResults (names : List String) (thr : ℚ) (raw : List ℚ) : List Nat → List (String × ℚ)
  | [] => []
  | idx :: rest =>
    if thr ≤ round2 (raw.getD idx 0 * 100) then
      (names.getD idx "", round2 (raw.getD idx 0 * 100)) :: formatResults names thr raw rest
    else formatResults names thr raw rest

/-- The confidence-vector to prediction-list function of _predict_sync
(model_worker.py lines 70-81), parametrised by the config constants it
reads (label set, TOP_K, threshold). -/
def predictFromRaw (names : List String) (k : Nat) (thr : ℚ) (raw : List ℚ) : List (String × ℚ) :=
  formatResults names thr raw (topIndices k raw)

/-- _predict_sync at the configured constants: the image decoding and the
model call itself are opaque (the classifier is an external collaborator);
this is the whole of _predict_sync downstream of the raw confidence
vector. -/
def predictSync (raw : List ℚ) : List (String × ℚ) :=
  predictFromRaw CLASS_NAMES TOP_K CONFIDENCE_THRESHOLD raw

/-- model_worker.py lines 43-47: the import-time check that the model
output dimensionality equals the label-set length.  A raised ValueError
at import time aborts the process before the server starts; the raise is
modelled as the error case of Except. -/
def modelWorkerInit (outputDim : Nat) : Except String Unit :=
  if outputDim ≠ CLASS_NAMES.length then
    Except.error "Model output classes do not match CLASS_NAMES. Retrain or update config."
  else Except.ok ()

/-! ### main.py: single-shot HTTP endpoint (lines 92-109) -/

/-- The parts of an uploaded file that predict_image inspects. -/
structure UploadFile where
  contentType : String
  contents : Frame

/-- Body of a JSON response: either an error object or a success object
with filename and predictions. -/
inductive RespBody where
  | errorMsg (msg : String)
  | success (filename : String) (predictions : List (String × ℚ))

/-- Whether a response body is the error form. -/
def RespBody.isErr : RespBody → Bool
  | RespBody.errorMsg _ => true
  | RespBody.success _ _ => false

/-- An HTTP response: status code and JSON body. -/
structure HttpResponse where
  status : Nat
  body : RespBody

/-- main.py lines 92-109, predict_image.  The classifier call
run_inference is passed as an opaque function (success gives the
prediction list, an exception gives the error case).  The second
component of the result records whether the classifier was invoked. -/
def predict_image (run_inference : Frame → Except String (List (String × ℚ)))
    (filename : String) (file : UploadFile) : HttpResponse × Bool :=
  if file.contentType ∈ ALLOWED_MIME_TYPES then
    if file.contents.length > MAX_UPLOAD_BYTES then
      (⟨400, RespBody.errorMsg "File too large."⟩, false)
    else
      match run_inference file.contents with
      | Except.ok preds => (⟨200, RespBody.success filename preds⟩, true)
      | Except.error e => (⟨400, RespBody.errorMsg e⟩, true)
  else
    (⟨400, RespBody.errorMsg ("Unsupported type " ++ file.contentType)⟩, false)

/-! ### main.py: WebSocket message validation (lines 167-193)

The receive loop validates each inbound text message in four stages:
size guard, JSON parse, frame key lookup, base64 decode.  JSON parsing
and base64 decoding are external library calls; they are modelled by
their observable outcome: a parsed message is an optional association
list of string fields (none = malformed JSON), and the base64 decoder
is an opaque function returning none on invalid input. -/

/-- What the receive loop observes about one inbound text message. -/
structure WsMsg where
  size : Nat
  json : Option (List (String × String))

/-- Looking up a key in a parsed JSON object. -/
def lookupKey (m : List (String × String)) (k : String) : Option String :=
  (m.find? (fun p => p.fst == k)).map Prod.snd

/-- Outcome of handling one message in the receive loop: either a single
error reply is sent and the loop continues, or the decoded frame is
accepted (written to the mailbox). -/
inductive WsAction where
  | reply (err : String)
  | accept (f : Frame)

/-- main.py lines 171-193: the per-message validation cascade of the
receive loop.  The size guard compares the text length against
WS_MAX_MESSAGE_BYTES * 1.4 (base64 inflation allowance). -/
def wsHandleMessage (b64decode : String → Option Frame) (m : WsMsg) : WsAction :=
  if (m.size : ℚ) > (WS_MAX_MESSAGE_BYTES : ℚ) * (14/10) then
    WsAction.reply "Frame too large."
  else
    match m.json with
    | none => WsAction.reply "Invalid JSON."
    | some obj =>
      match lookupKey obj "frame" with
      | none => WsAction.reply "Missing frame key."
      | some v =>
        match b64decode v with
        | none => WsAction.reply "Invalid base64 in frame."
        | some f => WsAction.accept f

/-- The receive loop over a list of inbound messages: collects the error
replies sent and threads the mailbox (pending frame) state.  The loop
never terminates on an error reply; it continues with the next
message. -/
def processMessages (b64decode : String → Option Frame) :
    List WsMsg → Option Frame → List String × Option Frame
  | [], p => ([], p)
  | m :: ms, p =>
    match wsHandleMessage b64decode m with
    | WsAction.reply e =>
      let r := processMessages b64decode ms p
      (e :: r.fst, r.snd)
    | WsAction.accept f => processMessages b64decode ms (some f)

/-! ### main.py: the per-connection frame-drop scheduler (lines 117-202)

One asyncio task runs the receive loop, a second runs _inference_loop;
they interleave cooperatively.  The atomic steps (code regions between
await points) are:

* arrive: the receive loop accepts a valid frame and overwrites the
  single-slot mailbox pending_frame[0] (line 193);
* pickup: _inference_loop finds the mailbox non-empty, sets busy,
  takes the frame out, and submits run_inference (lines 140-149);
* finishOk: run_inference returns, the prediction reply is sent and
  busy is cleared (lines 150-154, 161-162);
* finishErr: run_inference raises, the error reply is sent and busy is
  cleared (lines 155-162).

Ghost instrumentation (not program state) records the arrival order:
arrived lists every accepted frame in arrival order, the mailbox and the
in-flight marker carry the arrival index of their frame, processed lists
the picked-up frames in pickup order, and inflight counts run_inference
calls started but not yet completed for this connection. -/

/-- Control state of the single _inference_loop task: either polling the
mailbox, or awaiting run_inference on a picked-up frame. -/
inductive LoopCtl where
  | idle
  | running (i : Nat) (f : Frame)

/-- State of one WebSocket connection. -/
structure ConnState where
  pending : Option (Nat × Frame)
  busy : Bool
  ctl : LoopCtl
  inflight : Nat
  arrived : List Frame
  processed : List (Nat × Frame)

/-- Events of one connection. -/
inductive Ev where
  | arrive (f : Frame)
  | pickup
  | finishOk
  | finishErr (e : String)

/-- The labelled step relation of one connection. -/
inductive Step : ConnState → Ev → ConnState → Prop where
  | arrive (s : ConnState) (f : Frame) :
      Step s (Ev.arrive f)
        { s with pending := some (s.arrived.length, f), arrived := s.arrived ++ [f] }
  | pickup (s : ConnState) (i : Nat) (f : Frame)
      (hp : s.pending = some (i, f)) (hc : s.ctl = LoopCtl.idle) :
      Step s Ev.pickup
        { s with pending := none, busy := true, ctl := LoopCtl.running i f,
                 inflight := s.inflight + 1, processed := s.processed ++ [(i, f)] }
  | finishOk (s : ConnState) (i : Nat) (f : Frame)
      (hc : s.ctl = LoopCtl.running i f) :
      Step s Ev.finishOk
        { s with busy := false, ctl := LoopCtl.idle, inflight := s.inflight - 1 }
  | finishErr (s : ConnState) (i : Nat) (f : Frame) (e : String)
      (hc : s.ctl = LoopCtl.running i f) :
      Step s (Ev.finishErr e)
        { s with busy := false, ctl := LoopCtl.idle, inflight := s.inflight - 1 }

/-- Connection state right after websocket.accept(): empty mailbox, busy
clear, inference loop polling, nothing arrived or processed. -/
def initState : ConnState :=
  ⟨none, false, LoopCtl.idle, 0, [], []⟩

/-- States reachable from the fresh connection state. -/
inductive Reachable : ConnState → Prop where
  | base : Reachable initState
  | step {s t : ConnState} {e : Ev} : Reachable s → Step s e t → Reachable t

/-- Some step with any label. -/
def StepAny (s t : ConnState) : Prop := ∃ e, Step s e t

/-- Reachability from an arbitrary state. -/
def ReachFrom : ConnState → ConnState → Prop := Relation.ReflTransGen StepAny

/-! ### model_worker.py: the bounded executor (lines 50-53)

Modelled from the spec: ThreadPoolExecutor(max_workers =
MAX_INFERENCE_WORKERS) is Python standard library code, not part of this
repository; section 4.2 of the specification gives its contract: a
fixed-capacity pool of n workers, at most n submitted callables
executing concurrently, excess submissions queued in FIFO order.  Jobs
are identified by naturals; started records the start order (ghost). -/

structure ExecState where
  queue : List Nat
  running : List Nat
  started : List Nat
  submitted : List Nat

/-- Steps of the bounded executor with capacity n: submit enqueues, a
worker may start the head of the queue only when fewer than n jobs are
running, and a running job may finish. -/
inductive ExecStep (n : Nat) : ExecState → ExecState → Prop where
  | submit (s : ExecState) (j : Nat) :
      ExecStep n s ⟨s.queue ++ [j], s.running, s.started, s.submitted ++ [j]⟩
  | start (s : ExecState) (j : Nat) (rest : List Nat)
      (hq : s.queue = j :: rest) (hr : s.running.length < n) :
      ExecStep n s ⟨rest, s.running ++ [j], s.started ++ [j], s.submitted⟩
  | finish (s : ExecState) (j : Nat) (hj : j ∈ s.running) :
      ExecStep n s ⟨s.queue, s.running.erase j, s.started, s.submitted⟩

/-- Executor states reachable from the empty pool. -/
inductive ExecReach (n : Nat) : ExecState → Prop where
  | base : ExecReach n ⟨[], [], [], []⟩
  | step {s t : ExecState} : ExecReach n s → ExecStep n s t → ExecReach n t

/-! ### Lemmas about the top-K selection -/

instance (raw : List ℚ) : IsTotal Nat (idxLe raw) where
  total i j := by
    rcases lt_trichotomy (raw.getD i 0) (raw.getD j 0) with h | h | h
    · exact Or.inl (Or.inl h)
    · rcases Nat.le_total i j with hij | hij
      · exact Or.inl (Or.inr ⟨h, hij⟩)
      · exact Or.inr (Or.inr ⟨h.symm, hij⟩)
    · exact Or.inr (Or.inl h)

instance (raw : List ℚ) : IsTrans Nat (idxLe raw) where
  trans i j k hij hjk := by
    rcases hij with h1 | h1 <;> rcases hjk with h2 | h2
    · exact Or.inl (h1.trans h2)
    · exact Or.inl (h2.1 ▸ h1)
    · exact Or.inl (h1.1 ▸ h2)
    · exact Or.inr ⟨h1.1.trans h2.1, h1.2.trans h2.2⟩

theorem argsort_sorted (raw : List ℚ) : List.Pairwise (idxLe raw) (argsort raw) :=
  List.sorted_insertionSort (idxLe raw) (List.range raw.length)

theorem argsort_nodup (raw : List ℚ) : (argsort raw).Nodup :=
  (List.perm_insertionSort (idxLe raw) (List.range raw.length)).symm.nodup
    (List.nodup_range raw.length)

theorem takeLast_sublist (k : Nat) (l : List Nat) : (takeLast k l).Sublist l := by
  unfold takeLast
  split
  · exact List.Sublist.refl l
  · exact List.drop_sublist _ l

/-- The selected indices, in output order, are strictly descending in
the lexicographic order value-then-index: between two selected indices
with equal values, the larger index comes first. -/
theorem topIndices_pairwise (k : Nat) (raw : List ℚ) :
    List.Pairwise
      (fun i j => raw.getD j 0 < raw.getD i 0 ∨ (raw.getD i 0 = raw.getD j 0 ∧ j < i))
      (topIndices k raw) := by
  have hs : List.Pairwise (idxLe raw) (takeLast k (argsort raw)) :=
    List.Pairwise.sublist (takeLast_sublist k (argsort raw)) (argsort_sorted raw)
  have hn : (takeLast k (argsort raw)).Nodup :=
    List.Nodup.sublist (takeLast_sublist k (argsort raw)) (argsort_nodup raw)
  rw [topIndices, List.pairwise_reverse]
  refine (hs.and hn).imp ?_
  intro a b hab
  rcases hab.1 with h | h
  · exact Or.inl h
  · exact Or.inr ⟨h.1.symm, lt_of_le_of_ne h.2 hab.2⟩

/-- The selected indices are descending in value. -/
theorem topIndices_val_sorted (k : Nat) (raw : List ℚ) :
    List.Pairwise (fun i j => raw.getD j 0 ≤ raw.getD i 0) (topIndices k raw) := by
  refine (topIndices_pairwise k raw).imp ?_
  intro a b hab
  rcases hab with h | h
  · exact le_of_lt h
  · exact le_of_eq h.1.symm

theorem topIndices_length (raw : List ℚ) : (topIndices TOP_K raw).length ≤ TOP_K := by
  rw [topIndices, List.length_reverse, takeLast]
  have h3 : TOP_K = 3 := rfl
  rw [if_neg (by omega)]
  rw [List.length_drop]
  omega

/-! ### Lemmas about rounding -/

theorem roundHalfEven_ge_floor (q : ℚ) : ⌊q⌋ ≤ roundHalfEven q := by
  unfold roundHalfEven
  split_ifs <;> omega

theorem roundHalfEven_le_floor_add_one (q : ℚ) : roundHalfEven q ≤ ⌊q⌋ + 1 := by
  unfold roundHalfEven
  split_ifs <;> omega

theorem roundHalfEven_mono {q r : ℚ} (h : q ≤ r) : roundHalfEven q ≤ roundHalfEven r := by
  have hf : ⌊q⌋ ≤ ⌊r⌋ := Int.floor_mono h
  rcases lt_or_eq_of_le hf with hlt | heq
  · calc roundHalfEven q ≤ ⌊q⌋ + 1 := roundHalfEven_le_floor_add_one q
      _ ≤ ⌊r⌋ := by omega
      _ ≤ roundHalfEven r := roundHalfEven_ge_floor r
  · have hq : Int.fract q = q - (⌊q⌋ : ℚ) := (Int.self_sub_floor q).symm
    have hr : Int.fract r = r - (⌊r⌋ : ℚ) := (Int.self_sub_floor r).symm
    have hqr : ((⌊q⌋ : ℚ)) = ((⌊r⌋ : ℚ)) := by exact_mod_cast heq
    have hfr : Int.fract q ≤ Int.fract r := by rw [hq, hr]; linarith
    unfold roundHalfEven
    rw [← heq]
    by_cases h1 : Int.fract q < 1/2
    · rw [if_pos h1]
      split_ifs <;> omega
    · by_cases h2 : 1/2 < Int.fract q
      · have hr2 : 1/2 < Int.fract r := lt_of_lt_of_le h2 hfr
        have hr1 : ¬ Int.fract r < 1/2 := by linarith
        rw [if_neg h1, if_pos h2, if_neg hr1, if_pos hr2]
      · by_cases hr1 : Int.fract r < 1/2
        · exact absurd (lt_of_le_of_lt hfr hr1) h1
        · by_cases hr2 : 1/2 < Int.fract r
          · rw [if_neg h1, if_neg h2, if_neg hr1, if_pos hr2]
            split_ifs <;> omega
          · rw [if_neg h1, if_neg h2, if_neg hr1, if_neg hr2]

theorem round2_mono {q r : ℚ} (h : q ≤ r) : round2 q ≤ round2 r := by
  unfold round2
  have h1 : q * 100 ≤ r * 100 := mul_le_mul_of_nonneg_right h (by norm_num)
  have h2 : ((roundHalfEven (q * 100) : ℚ)) ≤ ((roundHalfEven (r * 100) : ℚ)) := by
    exact_mod_cast roundHalfEven_mono h1
  linarith

/-! ### Lemmas about the result loop -/

theorem formatResults_eq_filterMap (names : List String) (thr : ℚ) (raw : List ℚ)
    (l : List Nat) :
    formatResults names thr raw l =
      l.filterMap (fun idx =>
        if thr ≤ round2 (raw.getD idx 0 * 100) then
          some (names.getD idx "", round2 (raw.getD idx 0 * 100))
        else none) := by
  induction l with
  | nil => rfl
  | cons a l ih =>
    simp only [formatResults, List.filterMap_cons]
    by_cases h : thr ≤ round2 (raw.getD a 0 * 100)
    · simp only [if_pos h, ih]
    · simp only [if_neg h, ih]

theorem formatResults_length_le (names : List String) (thr : ℚ) (raw : List ℚ)
    (l : List Nat) : (formatResults names thr raw l).length ≤ l.length := by
  rw [formatResults_eq_filterMap]
  exact List.length_filterMap_le _ l

theorem formatResults_mem_thr (names : List String) (thr : ℚ) (raw : List ℚ)
    (l : List Nat) (p : String × ℚ) (hp : p ∈ formatResults names thr raw l) :
    thr ≤ p.snd := by
  induction l with
  | nil => exact absurd hp (by simp [formatResults])
  | cons a l ih =>
    by_cases h : thr ≤ round2 (raw.getD a 0 * 100)
    · rw [formatResults, if_pos h] at hp
      rcases List.mem_cons.1 hp with heq | hm
      · rw [heq]
        exact h
      · exact ih hm
    · rw [formatResults, if_neg h] at hp
      exact ih hp

theorem formatResults_pairwise (names : List String) (thr : ℚ) (raw : List ℚ)
    (l : List Nat) (hl : List.Pairwise (fun i j => raw.getD j 0 ≤ raw.getD i 0) l) :
    List.Pairwise (fun p q : String × ℚ => q.snd ≤ p.snd)
      (formatResults names thr raw l) := by
  rw [formatResults_eq_filterMap, List.pairwise_filterMap]
  refine hl.imp ?_
  intro a b hab x hx y hy
  by_cases ha : thr ≤ round2 (raw.getD a 0 * 100)
  · rw [if_pos ha, Option.mem_def, Option.some_inj] at hx
    by_cases hb : thr ≤ round2 (raw.getD b 0 * 100)
    · rw [if_pos hb, Option.mem_def, Option.some_inj] at hy
      rw [← hx, ← hy]
      exact round2_mono (mul_le_mul_of_nonneg_right hab (by norm_num))
    · rw [if_neg hb] at hy
      exact absurd hy (by simp)
  · rw [if_neg ha] at hx
    exact absurd hx (by simp)

/-! ### The inductive invariant of one connection -/

/-- Number of in-flight classifications implied by the loop control
state. -/
def ctlWeight : LoopCtl → Nat
  | LoopCtl.idle => 0
  | LoopCtl.running _ _ => 1

/-- The inductive invariant: the in-flight count tracks the loop control
state; the mailbox, when full, holds the most recent arrival; processed
frames are arrived frames, picked up in strictly increasing arrival
order, all older than the pending one; and when the mailbox is empty the
most recent arrival (if any) is the last frame picked up. -/
structure ConnInv (s : ConnState) : Prop where
  inflightCtl : s.inflight = ctlWeight s.ctl
  pendingLast : ∀ i f, s.pending = some (i, f) →
    i + 1 = s.arrived.length ∧ s.arrived[i]? = some f
  processedArr : ∀ i f, (i, f) ∈ s.processed → s.arrived[i]? = some f
  processedSorted : List.Pairwise (fun a b => a < b) (s.processed.map Prod.fst)
  processedLt : ∀ j, j ∈ s.processed.map Prod.fst → j < s.arrived.length
  pendingGt : ∀ i f j, s.pending = some (i, f) → j ∈ s.processed.map Prod.fst → j < i
  quiescent : s.pending = none →
    (s.arrived = [] ∧ s.processed = []) ∨
    (∃ i f, s.processed.getLast? = some (i, f) ∧ i + 1 = s.arrived.length)

theorem connInv_initState : ConnInv initState := by
  refine ⟨rfl, ?_, ?_, ?_, ?_, ?_, ?_⟩ <;> simp [initState, ctlWeight]

theorem connInv_step {s t : ConnState} {e : Ev} (hi : ConnInv s) (hst : Step s e t) :
    ConnInv t := by
  obtain ⟨h1, h2, h3, h4, h5, h6, h7⟩ := hi
  cases hst with
  | arrive f =>
    refine ⟨h1, ?_, ?_, h4, ?_, ?_, ?_⟩
    · intro i g hp
      have hpair : (s.arrived.length, f) = (i, g) := Option.some.inj hp
      injection hpair with hpi hpg
      subst hpi
      subst hpg
      constructor
      · simp
      · exact List.getElem?_concat_length s.arrived f
    · intro i g hm
      have hlt : i < s.arrived.length := h5 i (List.mem_map.2 ⟨(i, g), hm, rfl⟩)
      rw [List.getElem?_append_left hlt]
      exact h3 i g hm
    · intro j hj
      have := h5 j hj
      simp only [List.length_append, List.length_cons, List.length_nil]
      omega
    · intro i g j hp hj
      have hpair : (s.arrived.length, f) = (i, g) := Option.some.inj hp
      injection hpair with hpi hpg
      subst hpi
      exact h5 j hj
    · intro hp
      exact absurd hp (by simp)
  | pickup i f hp hc =>
    obtain ⟨hlen, hget⟩ := h2 i f hp
    refine ⟨?_, ?_, ?_, ?_, ?_, ?_, ?_⟩
    · rw [hc] at h1
      simp only [ctlWeight] at h1 ⊢
      omega
    · intro a b hpd
      exact absurd hpd (by simp)
    · intro a b hm
      rcases List.mem_append.1 hm with hm1 | hm2
      · exact h3 a b hm1
      · have hpair : (a, b) = (i, f) := by simpa using hm2
        injection hpair with hpa hpb
        subst hpa
        subst hpb
        exact hget
    · rw [List.map_append, List.pairwise_append]
      refine ⟨h4, by simp, ?_⟩
      intro a ha b hb
      have hbi : b = i := by simpa using hb
      rw [hbi]
      exact h6 i f a hp ha
    · intro j hj
      rw [List.map_append] at hj
      rcases List.mem_append.1 hj with hj1 | hj2
      · exact h5 j hj1
      · have hji : j = i := by simpa using hj2
        subst hji
        show j < s.arrived.length
        omega
    · intro a b j hpd
      exact absurd hpd (by simp)
    · intro _
      exact Or.inr ⟨i, f, List.getLast?_concat s.processed, hlen⟩
  | finishOk i f hc =>
    refine ⟨?_, h2, h3, h4, h5, h6, h7⟩
    rw [hc] at h1
    simp only [ctlWeight] at h1 ⊢
    omega
  | finishErr i f e2 hc =>
    refine ⟨?_, h2, h3, h4, h5, h6, h7⟩
    rw [hc] at h1
    simp only [ctlWeight] at h1 ⊢
    omega

theorem connInv_reachable {s : ConnState} (hs : Reachable s) : ConnInv s := by
  induction hs with
  | base => exact connInv_initState
  | step hr hst ih => exact connInv_step ih hst

/-! ### The overwritten-frame argument -/

/-- Relative invariant carried from the moment a pending frame with
arrival index i is overwritten: i is never in the processed list, stays
within the arrived range, and every later pending frame is newer. -/
def OverwriteJ (i : Nat) (u : ConnState) : Prop :=
  i ∉ u.processed.map Prod.fst ∧ i < u.arrived.length ∧
    ∀ j g, u.pending = some (j, g) → i < j

theorem overwriteJ_step {i : Nat} {u v : ConnState} (hj : OverwriteJ i u)
    (h : StepAny u v) : OverwriteJ i v := by
  obtain ⟨e, hst⟩ := h
  obtain ⟨hnp, hlen, hpend⟩ := hj
  cases hst with
  | arrive f =>
    refine ⟨hnp, ?_, ?_⟩
    · simp only [List.length_append, List.length_cons, List.length_nil]
      omega
    · intro j g hp
      have hpair : (u.arrived.length, f) = (j, g) := Option.some.inj hp
      injection hpair with hpj hpg
      omega
  | pickup a b hp hc =>
    refine ⟨?_, hlen, ?_⟩
    · rw [List.map_append]
      intro hmem
      rcases List.mem_append.1 hmem with hm1 | hm2
      · exact hnp hm1
      · have hia : i = a := by simpa using hm2
        have := hpend a b hp
        omega
    · intro j g hpd
      exact absurd hpd (by simp)
  | finishOk a b hc => exact ⟨hnp, hlen, hpend⟩
  | finishErr a b e2 hc => exact ⟨hnp, hlen, hpend⟩

/-- A pending frame overwritten by a newer arrival is never processed in
any subsequent state, even though it did arrive. -/
theorem overwrite_never_processed {s t u : ConnState} {i : Nat} {f g : Frame}
    (hs : Reachable s) (hp : s.pending = some (i, f))
    (hst : Step s (Ev.arrive g) t) (htu : ReachFrom t u) :
    i ∉ u.processed.map Prod.fst ∧ i < u.arrived.length := by
  have hinv := connInv_reachable hs
  have hJt : OverwriteJ i t := by
    obtain ⟨hlen, hget⟩ := hinv.pendingLast i f hp
    cases hst with
    | arrive =>
      refine ⟨?_, ?_, ?_⟩
      · intro hmem
        exact absurd (hinv.pendingGt i f i hp hmem) (lt_irrefl i)
      · simp only [List.length_append, List.length_cons, List.length_nil]
        omega
      · intro j g3 hpd
        have hpair : (s.arrived.length, g) = (j, g3) := Option.some.inj hpd
        injection hpair with hpj hpg
        omega
  have hJu : OverwriteJ i u := by
    induction htu with
    | refl => exact hJt
    | tail hab hbc ih => exact overwriteJ_step ih hbc
  exact ⟨hJu.1, hJu.2.1⟩

/-! ### The executor invariant -/

theorem execInv {n : Nat} {s : ExecState} (hs : ExecReach n s) :
    s.running.length ≤ n ∧ s.submitted = s.started ++ s.queue := by
  induction hs with
  | base => exact ⟨Nat.zero_le n, rfl⟩
  | @step s t hr hst ih =>
    obtain ⟨ih1, ih2⟩ := ih
    cases hst with
    | submit j =>
      refine ⟨ih1, ?_⟩
      show s.submitted ++ [j] = s.started ++ (s.queue ++ [j])
      rw [ih2, List.append_assoc]
    | start j rest hq hr2 =>
      constructor
      · show (s.running ++ [j]).length ≤ n
        simp only [List.length_append, List.length_cons, List.length_nil]
        omega
      · show s.submitted = (s.started ++ [j]) ++ rest
        rw [ih2, hq, List.append_assoc]
        rfl
    | finish j hj =>
      exact ⟨le_trans (List.length_erase_le j s.running) ih1, ih2⟩

/-! ### Specification predicates for the scheduler claims -/

/-- Mailbox facts (claim C3): a full mailbox holds exactly the most
recent arrival, not yet picked up; an arrival overwrites whatever is
pending; a pickup empties the mailbox; an overwritten frame is never
processed in any later state. -/
def MailboxSpec (s : ConnState) : Prop :=
  (∀ i f, s.pending = some (i, f) →
    s.arrived[i]? = some f ∧ i + 1 = s.arrived.length ∧ i ∉ s.processed.map Prod.fst) ∧
  (∀ g t, Step s (Ev.arrive g) t → t.pending = some (s.arrived.length, g)) ∧
  (∀ t, Step s Ev.pickup t → t.pending = none) ∧
  (∀ i f g t u, s.pending = some (i, f) → Step s (Ev.arrive g) t → ReachFrom t u →
    i ∉ u.processed.map Prod.fst)

/-- Scheduler ordering facts (claim C1): processed frames all arrived;
pickups follow strictly increasing arrival order; when the mailbox is
empty and anything has arrived, the last pickup is the most recent
arrival; a frame arriving during an in-flight classification becomes the
single pending slot; the next pickup takes exactly the pending frame;
and an overwritten frame arrived but is never processed (so the set of
processed frames is a strict subset whenever a frame was superseded). -/
def SchedulerSpec (s : ConnState) : Prop :=
  (∀ i f, (i, f) ∈ s.processed → s.arrived[i]? = some f) ∧
  List.Pairwise (fun a b => a < b) (s.processed.map Prod.fst) ∧
  (s.pending = none → s.arrived ≠ [] →
    ∃ i f, s.processed.getLast? = some (i, f) ∧ i + 1 = s.arrived.length) ∧
  (∀ g t, s.busy = true → Step s (Ev.arrive g) t → t.pending = some (s.arrived.length, g)) ∧
  (∀ i f t, s.pending = some (i, f) → Step s Ev.pickup t →
    t.processed = s.processed ++ [(i, f)] ∧ t.pending = none) ∧
  (∀ i f g t u, s.pending = some (i, f) → Step s (Ev.arrive g) t → ReachFrom t u →
    i < u.arrived.length ∧ i ∉ u.processed.map Prod.fst)

/-- In-flight facts (claim C2): at most one classification runs for the
connection at any instant, and a new one starts only when none is
running. -/
def InflightSpec (s : ConnState) : Prop :=
  s.inflight ≤ 1 ∧ (∀ t, Step s Ev.pickup t → s.inflight = 0)

/-! ### Claims C1, C2, C3, C9 -/

/-- Claim C1: for every sequence of frames sent on one connection, the
scheduler processes a subset of the arrived frames, in strictly
increasing arrival order (so no frame is ever processed after a strictly
newer frame that arrived before it was picked up); whenever the mailbox
is empty the last processed frame is the most recent arrival; a frame
arriving while a classification is in flight becomes the single pending
slot and is exactly the frame processed next unless a newer arrival
supersedes it first; and a superseded frame arrived but is never
processed, making the processed subset strict. -/
theorem scheduler_fresh_subset (s : ConnState) (hs : Reachable s) : SchedulerSpec s := by
  have hinv := connInv_reachable hs
  refine ⟨hinv.processedArr, hinv.processedSorted, ?_, ?_, ?_, ?_⟩
  · intro hp hne
    rcases hinv.quiescent hp with h | h
    · exact absurd h.1 hne
    · exact h
  · intro g t hb hst
    cases hst
    rfl
  · intro i f t hp hst
    cases hst with
    | pickup a b hpa hca =>
      have hpair : (a, b) = (i, f) := Option.some.inj (hpa.symm.trans hp)
      injection hpair with hpi hpf
      subst hpi
      subst hpf
      exact ⟨rfl, rfl⟩
  · intro i f g t u hp hst htu
    have h := overwrite_never_processed hs hp hst htu
    exact ⟨h.2, h.1⟩

theorem scheduler_fresh_subset_witness :
    SchedulerSpec (ConnState.mk (some (0, [3])) false LoopCtl.idle 0 [[3]] []) :=
  scheduler_fresh_subset _ (Reachable.step Reachable.base (Step.arrive initState [3]))

/-- Claim C2: at most one classification is in flight per connection at
any instant, and the inference loop starts a new run_inference call only
when the previous one has completed. -/
theorem at_most_one_inflight (s : ConnState) (hs : Reachable s) : InflightSpec s := by
  have hinv := connInv_reachable hs
  constructor
  · rw [hinv.inflightCtl]
    cases s.ctl <;> simp [ctlWeight]
  · intro t hst
    cases hst with
    | pickup a b hpa hca =>
      rw [hinv.inflightCtl, hca]
      rfl

theorem at_most_one_inflight_witness :
    InflightSpec (ConnState.mk none true (LoopCtl.running 0 [7]) 1 [[7]] [(0, [7])]) :=
  at_most_one_inflight _
    (Reachable.step (Reachable.step Reachable.base (Step.arrive initState [7]))
      (Step.pickup (ConnState.mk (some (0, [7])) false LoopCtl.idle 0 [[7]] []) 0 [7] rfl rfl))

/-- Claim C3: the per-connection mailbox is a single slot that, when
non-empty, holds exactly the most recently arrived frame not yet picked
up; writing while full overwrites (and the overwritten frame is never
processed); taking a frame empties the mailbox. -/
theorem mailbox_single_slot (s : ConnState) (hs : Reachable s) : MailboxSpec s := by
  have hinv := connInv_reachable hs
  refine ⟨?_, ?_, ?_, ?_⟩
  · intro i f hp
    obtain ⟨hlen, hget⟩ := hinv.pendingLast i f hp
    refine ⟨hget, hlen, ?_⟩
    intro hmem
    exact absurd (hinv.pendingGt i f i hp hmem) (lt_irrefl i)
  · intro g t hst
    cases hst
    rfl
  · intro t hst
    cases hst
    rfl
  · intro i f g t u hp hst htu
    exact (overwrite_never_processed hs hp hst htu).1

theorem mailbox_single_slot_witness :
    MailboxSpec (ConnState.mk (some (0, [9])) false LoopCtl.idle 0 [[9]] []) :=
  mailbox_single_slot _ (Reachable.step Reachable.base (Step.arrive initState [9]))

/-- Executor facts (claim C9): with pool capacity n, at most n jobs run
concurrently, and jobs start in exactly the order they were submitted
(the submission order is the start order followed by the FIFO queue). -/
def ExecutorSpec (n : Nat) (s : ExecState) : Prop :=
  s.running.length ≤ n ∧ s.submitted = s.started ++ s.queue

/-- Claim C9: at most MAX_INFERENCE_WORKERS classifier invocations
execute concurrently across the whole process, however many connections
submit, and excess submissions wait in FIFO order. -/
theorem executor_bounded_fifo (s : ExecState)
    (hs : ExecReach MAX_INFERENCE_WORKERS s) : ExecutorSpec MAX_INFERENCE_WORKERS s :=
  execInv hs

theorem executor_bounded_fifo_witness :
    ExecutorSpec MAX_INFERENCE_WORKERS (ExecState.mk [1] [0] [0] [0, 1]) :=
  executor_bounded_fifo _
    (ExecReach.step
      (ExecReach.step (ExecReach.step ExecReach.base (ExecStep.submit _ 0))
        (ExecStep.submit _ 1))
      (ExecStep.start _ 0 [1] rfl (by decide)))

/-! ### Claims C5, C10: top-K selection and thresholding -/

/-- Claim C5: every prediction list has length at most TOP_K, is sorted
descending by (reported, rounded) confidence, and every entry clears the
confidence floor; the floor can empty the list without error; and on the
vector [0.81, 0.04, 0.09, 0.87] over labels [a, b, c, d] with K = 3 and
floor 5.0 the result is [(d, 87), (a, 81), (c, 9)]. -/
theorem predictions_shape (raw : List ℚ) :
    (predictSync raw).length ≤ TOP_K ∧
    List.Pairwise (fun p q : String × ℚ => q.snd ≤ p.snd) (predictSync raw) ∧
    (∀ p ∈ predictSync raw, CONFIDENCE_THRESHOLD ≤ p.snd) ∧
    predictFromRaw ["a", "b", "c", "d"] 3 5 [81/100, 4/100, 9/100, 87/100] =
      [("d", 87), ("a", 81), ("c", 9)] ∧
    predictSync (List.replicate 20 0) = [] := by
  refine ⟨?_, ?_, ?_, ?_, ?_⟩
  · exact le_trans (formatResults_length_le _ _ _ _) (topIndices_length raw)
  · exact formatResults_pairwise _ _ _ _ (topIndices_val_sorted TOP_K raw)
  · intro p hp
    exact formatResults_mem_thr _ _ _ _ p hp
  · norm_num [predictFromRaw, formatResults, topIndices, takeLast, argsort, idxLe,
      round2, roundHalfEven, List.range, List.range.loop, Int.fract, Int.floor_eq_iff]
  · norm_num [predictSync, predictFromRaw, formatResults, topIndices, takeLast, argsort, idxLe,
      TOP_K, CONFIDENCE_THRESHOLD, CLASS_NAMES, round2, roundHalfEven,
      List.range, List.range.loop, List.replicate, Int.fract, Int.floor_eq_iff]

/-- Raw value 0.04996: as a percentage it is 4.996, strictly below the
5.0 floor, but it rounds to 5.00. -/
def c10vec : List ℚ := (1249/25000 : ℚ) :: List.replicate 19 0

/-- Claim C10: the confidence floor is applied to the rounded
percentage, not the raw value: an entry is kept exactly when
round(raw * 100, 2) clears the floor, so raw value 0.04996 (percentage
4.996, strictly below the floor) is still included, and the reported
confidence is the rounded value 5. -/
theorem threshold_after_rounding :
    (∀ raw : List ℚ, predictSync raw = (topIndices TOP_K raw).filterMap (fun idx =>
      if CONFIDENCE_THRESHOLD ≤ round2 (raw.getD idx 0 * 100) then
        some (CLASS_NAMES.getD idx "", round2 (raw.getD idx 0 * 100))
      else none)) ∧
    (1249/25000 : ℚ) * 100 < CONFIDENCE_THRESHOLD ∧
    round2 ((1249/25000 : ℚ) * 100) = CONFIDENCE_THRESHOLD ∧
    predictSync c10vec = [("animals", 5)] := by
  refine ⟨?_, ?_, ?_, ?_⟩
  · intro raw
    exact formatResults_eq_filterMap CLASS_NAMES CONFIDENCE_THRESHOLD raw (topIndices TOP_K raw)
  · norm_num [CONFIDENCE_THRESHOLD]
  · norm_num [round2, roundHalfEven, CONFIDENCE_THRESHOLD, Int.fract, Int.floor_eq_iff]
  · norm_num [predictSync, predictFromRaw, formatResults, topIndices, takeLast, argsort, idxLe,
      c10vec, TOP_K, CONFIDENCE_THRESHOLD, CLASS_NAMES, round2, roundHalfEven,
      List.range, List.range.loop, List.replicate, Int.fract, Int.floor_eq_iff]

/-! ### Claims C6, C8: HTTP validation and startup check -/

/-- Claim C6: a POST /predict-image request with a content type outside
the allowed MIME set, or a body larger than the upload ceiling, gets a
400 response with an error body, and the classifier is never invoked. -/
theorem reject_invalid_upload (run_inference : Frame → Except String (List (String × ℚ)))
    (filename : String) (file : UploadFile)
    (h : file.contentType ∉ ALLOWED_MIME_TYPES ∨ MAX_UPLOAD_BYTES < file.contents.length) :
    (predict_image run_inference filename file).fst.status = 400 ∧
    (predict_image run_inference filename file).fst.body.isErr = true ∧
    (predict_image run_inference filename file).snd = false := by
  rcases h with h | h
  · simp only [predict_image, if_neg h]
    exact ⟨trivial, rfl, trivial⟩
  · by_cases hm : file.contentType ∈ ALLOWED_MIME_TYPES
    · simp only [predict_image, if_pos hm, if_pos h]
      exact ⟨trivial, rfl, trivial⟩
    · simp only [predict_image, if_neg hm]
      exact ⟨trivial, rfl, trivial⟩

theorem reject_invalid_upload_witness :
    (predict_image (fun _ => Except.ok []) "x" (UploadFile.mk "text/plain" [])).fst.status = 400 ∧
    (predict_image (fun _ => Except.ok []) "x" (UploadFile.mk "text/plain" [])).fst.body.isErr
      = true ∧
    (predict_image (fun _ => Except.ok []) "x" (UploadFile.mk "text/plain" [])).snd = false :=
  reject_invalid_upload _ _ _ (Or.inl (by decide))

/-- Claim C8: at import time, a classifier output dimensionality
different from the label-set length raises the fatal configuration
error (so the server process never starts); an equal one initialises
successfully. -/
theorem startup_label_check (d : Nat) :
    (modelWorkerInit d = Except.ok () ↔ d = CLASS_NAMES.length) ∧
    (modelWorkerInit d =
        Except.error "Model output classes do not match CLASS_NAMES. Retrain or update config."
      ↔ d ≠ CLASS_NAMES.length) := by
  by_cases h : d = CLASS_NAMES.length
  · simp [modelWorkerInit, h]
  · simp [modelWorkerInit, h]

/-! ### Claim C7: WebSocket error handling -/

/-- The erroneous-message cases of the receive loop: oversized text,
malformed JSON, missing frame key, or invalid base64. -/
def WsErrorCase (b64decode : String → Option Frame) (m : WsMsg) : Prop :=
  (WS_MAX_MESSAGE_BYTES : ℚ) * (14/10) < (m.size : ℚ) ∨
  m.json = none ∨
  (∃ obj, m.json = some obj ∧ lookupKey obj "frame" = none) ∨
  (∃ obj v, m.json = some obj ∧ lookupKey obj "frame" = some v ∧ b64decode v = none)

/-- Base64 decoder used by the concrete demonstration below: accepts one
known token. -/
def b64demo : String → Option Frame :=
  fun v => if v == "Zg==" then some [5] else none

/-- A malformed-JSON message and a well-formed frame message. -/
def wsBadJson : WsMsg := ⟨10, none⟩

def wsGoodMsg : WsMsg := ⟨20, some [("frame", "Zg==")]⟩

/-- Claim C7, as a conjunction: every erroneous message gets exactly one
error reply; after an error reply the loop continues with the remaining
messages (the connection is not closed); an accepted frame is written to
the mailbox and the loop continues; after a classification failure the
inference loop emits the error and returns to polling (so the
connection keeps working); and, concretely, a malformed message followed
by a well-formed frame yields one error reply and the frame lands in
the mailbox. -/
def WsRobust : Prop :=
  (∀ b64decode m, WsErrorCase b64decode m →
    ∃ e, wsHandleMessage b64decode m = WsAction.reply e) ∧
  (∀ b64decode m ms p e, wsHandleMessage b64decode m = WsAction.reply e →
    processMessages b64decode (m :: ms) p =
      (e :: (processMessages b64decode ms p).fst, (processMessages b64decode ms p).snd)) ∧
  (∀ b64decode m ms p f, wsHandleMessage b64decode m = WsAction.accept f →
    processMessages b64decode (m :: ms) p = processMessages b64decode ms (some f)) ∧
  (∀ s i f e, s.ctl = LoopCtl.running i f →
    Step s (Ev.finishErr e)
      { s with busy := false, ctl := LoopCtl.idle, inflight := s.inflight - 1 } ∧
    ctlWeight LoopCtl.idle = 0) ∧
  processMessages b64demo [wsBadJson, wsGoodMsg] none = (["Invalid JSON."], some [5])

/-- Claim C7: WebSocket errors (oversized, malformed JSON, missing frame
key, invalid base64, classification failure) each produce a single error
reply, never close the connection, and a subsequent well-formed frame on
the same connection is processed normally. -/
theorem ws_errors_keep_connection : WsRobust := by
  refine ⟨?_, ?_, ?_, ?_, ?_⟩
  · intro b64decode m hcase
    unfold wsHandleMessage
    by_cases hs : (m.size : ℚ) > (WS_MAX_MESSAGE_BYTES : ℚ) * (14/10)
    · rw [if_pos hs]
      exact ⟨_, rfl⟩
    · rw [if_neg hs]
      rcases hcase with h | h | ⟨obj, hj, hk⟩ | ⟨obj, v, hj, hk, hb⟩
      · exact absurd h hs
      · rw [h]
        exact ⟨_, rfl⟩
      · simp only [hj, hk]
        exact ⟨_, rfl⟩
      · simp only [hj, hk, hb]
        exact ⟨_, rfl⟩
  · intro b64decode m ms p e h
    simp only [processMessages, h]
  · intro b64decode m ms p f h
    simp only [processMessages, h]
  · intro s i f e hc
    exact ⟨Step.finishErr s i f e hc, rfl⟩
  · norm_num [processMessages, wsHandleMessage, wsBadJson, wsGoodMsg, b64demo, lookupKey,
      WS_MAX_MESSAGE_BYTES, List.find?]
